import Mathlib

/-!
# Verification of the self-play chess training engine

Shallow embedding of the move-decision and self-play training engine:
the tabular value store, the learning step, the canonical position key,
the MCTS tree search, the opening-book gate of the decision policy, and
the orchestrator (GameManager) state transitions.

Conventions of the embedding:
* JavaScript `Map` objects are modelled as association lists in insertion
  order (`List (String × β)`); `Map.set` on an existing key replaces the
  value in place, on a fresh key it appends at the end, exactly as the
  iteration order of a JavaScript `Map` behaves.
* JavaScript floating-point numbers are modelled as rationals (`ℚ`); the
  formulas of the learning step and of the decision policy are plain
  field arithmetic, so the rational model computes the same algebra.
* `Math.random()` draws and the floating-point UCB1 comparison are
  modelled as explicit oracle parameters, universally quantified in the
  theorems, so every proved statement holds for every possible sequence
  of draws.
-/

namespace Chess

/-- Entry of the Q-table: `{ value, visits }` (neural-net.ts, `QTableEntry`). -/
structure QTableEntry where
  value : ℚ
  visits : Nat
deriving Repr, DecidableEq

/-- `MAX_POSITIONS = 10000` (neural-net.ts). -/
def MAX_POSITIONS : Nat := 10000

/-- `INITIAL_EXPLORATION = 0.3` (neural-net.ts). -/
def INITIAL_EXPLORATION : ℚ := 3/10

/-- `MIN_EXPLORATION = 0.05` (neural-net.ts). -/
def MIN_EXPLORATION : ℚ := 1/20

/-- `EXPLORATION_DECAY = 0.995` (neural-net.ts). -/
def EXPLORATION_DECAY : ℚ := 199/200

/-- `LEARNING_RATE = 0.1` (neural-net.ts). -/
def LEARNING_RATE : ℚ := 1/10

/-- `DISCOUNT_FACTOR = 0.9` (neural-net.ts). -/
def DISCOUNT_FACTOR : ℚ := 9/10

/-- A JavaScript `Map` with `String` keys, in insertion order. -/
abbrev JsMap (β : Type) : Type := List (String × β)

namespace JsMap

/-- `m.get(k)`: the value stored at the (unique) occurrence of key `k`. -/
def get {β : Type} (m : JsMap β) (k : String) : Option β :=
  (m.find? (fun p => p.1 = k)).map (fun p => p.2)

/-- `m.has(k)`. -/
def hasKey {β : Type} (m : JsMap β) (k : String) : Bool :=
  (m.find? (fun p => p.1 = k)).isSome

/-- `m.set(k, v)`: replace in place when the key is present, append otherwise. -/
def set {β : Type} (m : JsMap β) (k : String) (v : β) : JsMap β :=
  if m.hasKey k then
    m.map (fun p => if p.1 = k then (k, v) else p)
  else
    m ++ [(k, v)]

/-- `m.size`. -/
def size {β : Type} (m : JsMap β) : Nat := m.length

end JsMap

/-- The Q-table of one agent: position hash → move → value entry
(neural-net.ts, field `qTable`). -/
abbrev QTable : Type := JsMap (JsMap QTableEntry)

/-- `getQValue(posHash, move)` (neural-net.ts lines 94-99): 0 when either
level of the table has no entry. -/
def getQValue (qTable : QTable) (posHash move : String) : ℚ :=
  match qTable.get posHash with
  | none => 0
  | some posEntry =>
    match posEntry.get move with
    | none => 0
    | some e => e.value

/-- Aggregate visit count of one position entry: the loop
`moves.forEach(entry => totalVisits += entry.visits)` in `pruneQTable`. -/
def totalVisits (moves : JsMap QTableEntry) : Nat :=
  (moves.map (fun p => p.2.visits)).sum

/-- `pruneQTable()` (neural-net.ts lines 120-134): aggregate visit counts per
position key, sort ascending by aggregate (JavaScript `Array.sort` with
comparator `a[1] - b[1]`, modelled by the stable `List.insertionSort`), and
delete the first `Math.floor(entries.length * 0.2)` keys of the sorted list.
For every table size that can occur, `Math.floor(n * 0.2) = n / 5` in `Nat`
division. Sequential `Map.delete` of distinct keys is the filter below. -/
def pruneQTable (qTable : QTable) : QTable :=
  let entries : List (String × Nat) :=
    qTable.map (fun p => (p.1, totalVisits p.2))
  let sorted := entries.insertionSort (fun a b => a.2 ≤ b.2)
  let toRemove := sorted.take (entries.length / 5)
  qTable.filter (fun p => ¬ (toRemove.map (fun q => q.1)).contains p.1)

/-- `setQValue(posHash, move, value)` (neural-net.ts lines 102-117): when the
position key is fresh, first prune if the table is at capacity, then create
the inner map; finally upsert the move entry, bumping its visit count. -/
def setQValue (qTable : QTable) (posHash move : String) (value : ℚ) : QTable :=
  let qTable :=
    if qTable.hasKey posHash then qTable
    else
      let pruned := if MAX_POSITIONS ≤ qTable.size then pruneQTable qTable else qTable
      pruned.set posHash []
  let posEntry := (qTable.get posHash).getD []
  let newVisits :=
    match posEntry.get move with
    | some existing => existing.visits + 1
    | none => 1
  qTable.set posHash (posEntry.set move ⟨value, newVisits⟩)

/-- One recorded step of the Game Trace: `{ positionHash, move, reward }`
(neural-net.ts, field `gameHistory`). -/
structure HistEntry where
  positionHash : String
  move : String
  reward : ℚ
deriving Repr, DecidableEq

/-- Game outcome passed to `learn` and `updateStats`. -/
inductive GameResult where
  | win
  | loss
  | draw
deriving Repr, DecidableEq

/-- `finalReward` of `learn` (neural-net.ts line 345):
win `1.0`, loss `-1.0`, draw `0.1`. -/
def finalReward : GameResult → ℚ
  | .win => 1
  | .loss => -1
  | .draw => 1/10

/-- Body of the backward loop of `learn` (neural-net.ts lines 350-359),
acting on the pair (Q-table, cumulative reward). -/
def learnStep (acc : QTable × ℚ) (e : HistEntry) : QTable × ℚ :=
  let oldQ := getQValue acc.1 e.positionHash e.move
  let newQ := oldQ + LEARNING_RATE * (acc.2 - oldQ)
  (setQValue acc.1 e.positionHash e.move newQ, e.reward + DISCOUNT_FACTOR * acc.2)

/-- The Q-table produced by `learn(result)` (neural-net.ts lines 344-366):
the trace is walked from the last recorded entry to the first. -/
def learnQTable (result : GameResult) (gameHistory : List HistEntry)
    (qTable : QTable) : QTable :=
  (gameHistory.reverse.foldl learnStep (qTable, finalReward result)).1

/-- The mutable state of one `NeuralNetwork` agent (neural-net.ts
lines 60-79). -/
structure NNState where
  elo : ℚ
  gamesPlayed : Nat
  wins : Nat
  losses : Nat
  draws : Nat
  explorationRate : ℚ
  currentStreak : Int
  bestWinStreak : Nat
  bestLossStreak : Nat
  qTable : QTable
  gameHistory : List HistEntry
deriving DecidableEq

namespace NeuralNetwork

/-- `learn(result)` (neural-net.ts lines 344-366): propagate rewards backward
through the Game Trace into the Q-table, clear the trace, and decay the
exploration rate with floor `MIN_EXPLORATION`. -/
def learn (result : GameResult) (s : NNState) : NNState :=
  { s with
    qTable := learnQTable result s.gameHistory s.qTable
    gameHistory := []
    explorationRate := max MIN_EXPLORATION (s.explorationRate * EXPLORATION_DECAY) }

/-- The serialized `AIState` snapshot (neural-net.ts, interface `AIState`).
The nested `Record` of plain objects keeps the same entries in the same
order as the `Map` it was flattened from, so it shares the association-list
representation. -/
structure AIState where
  elo : Int
  gamesPlayed : Nat
  wins : Nat
  losses : Nat
  draws : Nat
  qTable : QTable
  currentStreak : Int
  bestWinStreak : Nat
  bestLossStreak : Nat
deriving DecidableEq

/-- `exportState()` (neural-net.ts lines 455-475): the rating is exported as
`Math.floor(this.elo)`; the Q-table is flattened entry by entry in iteration
order. -/
def exportState (s : NNState) : AIState :=
  { elo := ⌊s.elo⌋
    gamesPlayed := s.gamesPlayed
    wins := s.wins
    losses := s.losses
    draws := s.draws
    qTable := s.qTable
    currentStreak := s.currentStreak
    bestWinStreak := s.bestWinStreak
    bestLossStreak := s.bestLossStreak }

/-- `importState(state)` (neural-net.ts lines 478-502): every counter and the
Q-table are taken from the snapshot (`state.currentStreak || 0` is the
identity on the integer model, since `0 || 0` is `0`); the exploration rate
is not taken from the snapshot but recomputed as
`max(MIN_EXPLORATION, INITIAL_EXPLORATION * EXPLORATION_DECAY ^ gamesPlayed)`.
The in-progress Game Trace field is not touched by `importState`. -/
def importState (st : AIState) (s : NNState) : NNState :=
  { elo := (st.elo : ℚ)
    gamesPlayed := st.gamesPlayed
    wins := st.wins
    losses := st.losses
    draws := st.draws
    explorationRate :=
      max MIN_EXPLORATION (INITIAL_EXPLORATION * EXPLORATION_DECAY ^ st.gamesPlayed)
    currentStreak := st.currentStreak
    bestWinStreak := st.bestWinStreak
    bestLossStreak := st.bestLossStreak
    qTable := st.qTable
    gameHistory := s.gameHistory }

end NeuralNetwork

/-! ## Canonical position key

`chess.fen()` of the external rules oracle produces the six space-separated
FEN fields: piece placement, side to move, castling rights, en-passant
target square, halfmove clock, fullmove number. None of the six fields
contains a space, so `fen.split(' ')` recovers exactly the field list. -/

/-- A full game state at the level of detail the position key reads: the six
FEN fields of the external rules oracle. -/
structure Fen where
  placement : String
  sideToMove : String
  castling : String
  enPassant : String
  halfmove : Nat
  fullmove : Nat
deriving DecidableEq

/-- `hashPosition(chess)` (neural-net.ts lines 87-91):
`fen.split(' ').slice(0, 4).join(' ')` — the first four FEN fields, joined
by single spaces. `simplifyFen` of the opening book (openings.ts) is the
same computation. -/
def hashPosition (f : Fen) : String :=
  f.placement ++ " " ++ f.sideToMove ++ " " ++ f.castling ++ " " ++ f.enPassant

/-! ## Decision policy (`decideMove`) -/

/-- Piece letters of the rules oracle. -/
inductive PieceKind where
  | p | n | b | r | q | k
deriving DecidableEq

/-- The capture-value table `{ p: 1, n: 3, b: 3, r: 5, q: 9 }` of
`evaluateMove`; `values[captured] || 0` yields 0 for a king. -/
def captureValue : PieceKind → ℚ
  | .p => 1
  | .n => 3
  | .b => 3
  | .r => 5
  | .q => 9
  | .k => 0

/-- A verbose move of the rules oracle, at the level `evaluateMove` and
`decideMove` read it: SAN text, captured piece, promotion flag. -/
structure MoveV where
  san : String
  captured : Option PieceKind
  promotion : Bool
deriving DecidableEq

/-- `evaluateMove(move)` (neural-net.ts lines 220-230): capture value × 0.1,
plus 0.9 for a promotion, plus 0.1 when the SAN contains a check mark and
1.0 when it contains a mate mark (`san.includes` of a one-character pattern
is character membership in the character data of the string). -/
def evaluateMove (m : MoveV) : ℚ :=
  (match m.captured with
   | some c => captureValue c * (1/10)
   | none => 0)
  + (if m.promotion then 9/10 else 0)
  + (if m.san.data.contains '+' then 1/10 else 0)
  + (if m.san.data.contains '#' then 1 else 0)

/-- The opening-book probability gate of `decideMove` (neural-net.ts
line 241): the book branch is entered when
`Math.random() > this.explorationRate * 0.5`, where `r` is the draw. -/
def bookGate (explorationRate r : ℚ) : Bool :=
  decide (explorationRate * (1/2) < r)

/-- The weighted-random exploration loop of `decideMove` (neural-net.ts
lines 257-264): subtract each weight `1 + evaluateMove(m)` in turn from the
scaled draw and select the first move that drives it to 0 or below; when the
loop falls through, control continues to the exploitation branch. -/
def weightedPick : List MoveV → ℚ → Option MoveV
  | [], _ => none
  | m :: ms, r =>
    let r := r - (1 + evaluateMove m)
    if r ≤ 0 then some m else weightedPick ms r

/-- `decideMove(chess)` (neural-net.ts lines 233-281). The rules-oracle and
opening-book outputs (`moves`, `isInBook(fen)`, `getBookMove(fen)`) and the
three `Math.random()` draws (`r0` for the book gate, `r1` for the
explore-or-exploit test, `r2` for the weighted selection) are inputs.
Returns the chosen SAN together with the updated Game Trace. -/
def decideMove (s : NNState) (fen : Fen) (moves : List MoveV) (inBook : Bool)
    (bookMove : Option String) (r0 r1 r2 : ℚ) : Option String × List HistEntry :=
  match moves with
  | [] => (none, s.gameHistory)
  | m0 :: rest =>
    let posHash := hashPosition fen
    let bookResult : Option String :=
      if inBook && bookGate s.explorationRate r0 then
        match bookMove with
        | some bm => if moves.any (fun m => m.san = bm) then some bm else none
        | none => none
      else none
    match bookResult with
    | some bm => (some bm, s.gameHistory)
    | none =>
      let exploreResult : Option MoveV :=
        if r1 < s.explorationRate then
          let totalWeight := (moves.map (fun m => 1 + evaluateMove m)).sum
          weightedPick moves (r2 * totalWeight)
        else none
      match exploreResult with
      | some m =>
        (some m.san, s.gameHistory ++ [⟨posHash, m.san, evaluateMove m⟩])
      | none =>
        let score := fun (m : MoveV) => getQValue s.qTable posHash m.san + evaluateMove m
        let best := rest.foldl (fun best m => if score best < score m then m else best) m0
        (some best.san, s.gameHistory ++ [⟨posHash, best.san, evaluateMove best⟩])

/-! ## Orchestrator (`GameManager`) -/

/-- A move-quality record (blunder-detector.ts, interface `MoveEvaluation`). -/
structure MoveEvaluation where
  moveNumber : Nat
  move : String
  evalBefore : ℚ
  evalAfter : ℚ
  evalChange : ℚ
  quality : String
deriving DecidableEq

/-- The state of the `BlunderDetector` (blunder-detector.ts lines 73-77). -/
structure BlunderState where
  evalHistory : List ℚ
  moveHistory : List MoveEvaluation
  lastMoveNumber : Nat
deriving DecidableEq

/-- `BlunderDetector.reset()` (blunder-detector.ts lines 188-192). -/
def BlunderState.reset (_ : BlunderState) : BlunderState :=
  { evalHistory := [], moveHistory := [], lastMoveNumber := 0 }

/-- The rules-oracle game object at the level `GameManager` observes:
current position and move history, over an abstract position type `P`. -/
structure ChessGame (P : Type) where
  position : P
  history : List String

/-- `chess.reset()` of the external rules oracle: back to the distinguished
initial position with an empty move history. -/
def ChessGame.reset {P : Type} (initial : P) (_ : ChessGame P) : ChessGame P :=
  { position := initial, history := [] }

/-- The fields of `GameManager` that `start`, `pause` and `stop` touch or
must leave alone (game-manager.ts lines 11-28), over an abstract position
type `P`. `timerPending` models `this.timer !== null` (a scheduled move
cycle); the two agents carry their full `NeuralNetwork` state including
Value Store and Game Trace. -/
structure GMState (P : Type) where
  chess : ChessGame P
  whiteAI : NNState
  blackAI : NNState
  isRunning : Bool
  timerPending : Bool
  moveTimesMs : List Nat
  blunderDetector : BlunderState
  lastMoveEval : Option MoveEvaluation

namespace GameManager

/-- `pause()` (game-manager.ts lines 212-219): stop running and cancel any
pending scheduled cycle. -/
def pause {P : Type} (s : GMState P) : GMState P :=
  { s with isRunning := false, timerPending := false }

/-- `stop()` (game-manager.ts lines 221-229): `pause()`, then reset the
board, clear the move-time list, reset the blunder detector and drop the
last move evaluation. No other field is touched. -/
def stop {P : Type} (initial : P) (s : GMState P) : GMState P :=
  let s := pause s
  { s with
    chess := s.chess.reset initial
    moveTimesMs := []
    blunderDetector := s.blunderDetector.reset
    lastMoveEval := none }

/-- `start()` (game-manager.ts lines 205-210): no-op while running,
otherwise mark running; the move cycle it launches then plays on the
current board. -/
def start {P : Type} (s : GMState P) : GMState P :=
  if s.isRunning then s else { s with isRunning := true }

end GameManager

/-! ### Benchmark and quick-train command handlers

The two socket handlers in the `GameManager` constructor
(game-manager.ts lines 76-110 and 185-197) run as asynchronous callbacks:
between `await` points of one handler the other can be dispatched. The
interleaving-relevant state is the `isBenchmarking` flag — the only guard
either handler consults — together with whether a `quickTrain` call is in
flight (the code keeps no flag for the latter). Handler entry and exit are
the four events below. -/

structure OrchFlags where
  isBenchmarking : Bool
  quickTrainActive : Bool
deriving DecidableEq

inductive OrchEvent where
  | benchArrive
  | benchFinish
  | qtArrive
  | qtFinish
deriving DecidableEq

/-- One event step of the two handlers. The second component records
whether the step emitted the `benchmark_error` busy signal (line 78).
`run_benchmark` is rejected exactly when `isBenchmarking` is already set;
the `quick_train` handler has no guard at all and sets no flag that
`run_benchmark` checks. `benchFinish` is the `finally` clause (line 108). -/
def orchStep (s : OrchFlags) : OrchEvent → OrchFlags × Bool
  | .benchArrive =>
    if s.isBenchmarking then (s, true) else ({ s with isBenchmarking := true }, false)
  | .benchFinish => ({ s with isBenchmarking := false }, false)
  | .qtArrive => ({ s with quickTrainActive := true }, false)
  | .qtFinish => ({ s with quickTrainActive := false }, false)

/-- Run a sequence of events from a starting flag state. -/
def orchRun (s : OrchFlags) : List OrchEvent → OrchFlags
  | [] => s
  | e :: es => orchRun (orchStep s e).1 es

/-- The flag state at process start: no benchmark, no quick training. -/
def orchInit : OrchFlags := { isBenchmarking := false, quickTrainActive := false }

/-- The clamp of the `quick_train` handler (game-manager.ts line 186):
`Math.min(Math.max(1, numGames || 5), 50)`, where `numGames || 5` yields 5
when the payload is missing (`undefined`) or 0. -/
def quickTrainGames (numGames : Option Nat) : Nat :=
  min (max 1 (match numGames with | none => 5 | some 0 => 5 | some k => k)) 50

/-- The game loop of `quickTrain(numGames)` (game-manager.ts lines 248-316):
`for (let game = 0; game < numGames; game++)` plays one full self-play game
per iteration. The body is abstracted as a state transformer `playGame`;
the loop applies it exactly `numGames` times. -/
def quickTrainLoop {σ : Type} (playGame : σ → σ) : Nat → σ → σ
  | 0, st => st
  | n + 1, st => quickTrainLoop playGame n (playGame st)

/-- `quickTrain(numGames)` (game-manager.ts lines 232-335): run the loop and
report `gamesPlayed: numGames` in the result record (line 328). -/
def quickTrain {σ : Type} (playGame : σ → σ) (numGames : Nat) (st : σ) : σ × Nat :=
  (quickTrainLoop playGame numGames st, numGames)

/-! ## Tree Search Engine (`mcts.ts`)

The search is generic over the external rules oracle: `P` is the position
type, `M` the move type. The `Math.random()` draws (which untried move the
expansion picks), the floating-point UCB1 comparison (which child the
selection step descends into), and the random rollout result of `simulate`
are an oracle parameter; the theorems quantify over every oracle, so they
hold for the UCB1 scores and random draws of the source in particular. -/

/-- The parts of the rules oracle (`chess.js`) that `mcts` consults:
`chess.moves()` and `chess.move(m)`. -/
structure GameRules (P M : Type) where
  legalMoves : P → List M
  applyMove : P → M → P

/-- A search-tree node (mcts.ts, interface `MCTSNode`): `move` is `none`
only for the root; the parent back-reference is represented by the
recursion path instead of a field. -/
inductive MCTSNode (P M : Type) : Type where
  | mk (move : Option M) (visits : Nat) (wins : ℚ) (untried : List M) (pos : P)
      (children : List (MCTSNode P M)) : MCTSNode P M

/-- The `move` field. -/
def MCTSNode.move {P M : Type} : MCTSNode P M → Option M
  | .mk mv _ _ _ _ _ => mv

/-- The `visits` field. -/
def MCTSNode.visits {P M : Type} : MCTSNode P M → Nat
  | .mk _ v _ _ _ _ => v

/-- The `untriedMoves` field. -/
def MCTSNode.untried {P M : Type} : MCTSNode P M → List M
  | .mk _ _ _ u _ _ => u

/-- The `children` field. -/
def MCTSNode.children {P M : Type} : MCTSNode P M → List (MCTSNode P M)
  | .mk _ _ _ _ _ c => c

/-- The sources of nondeterminism of one search: `selectIdx` abstracts the
argmax over floating-point UCB1 scores in `selectChild` (an index into the
children list, reduced mod its length since `selectChild` always returns
one of the children); `expandIdx` abstracts
`Math.floor(Math.random() * untriedMoves.length)` (always in range, hence
the mod); `simulate` abstracts the random rollout value of `simulate(fen)`,
a function of the position once the root turn is fixed. -/
structure SearchOracle (P M : Type) where
  selectIdx : List (MCTSNode P M) → Nat
  expandIdx : Nat → Nat
  simulate : P → ℚ

/-- `createNode(fen, move, parent)` (mcts.ts lines 28-45). -/
def createNode {P M : Type} (g : GameRules P M) (pos : P) (move : Option M) :
    MCTSNode P M :=
  .mk move 0 0 (g.legalMoves pos) pos []

/-- One iteration of the search loop (mcts.ts lines 322-340), fused with the
`backpropagate` walk (lines 291-302): descend by UCB1 selection while the
node has no untried move but has children; then either expand one untried
move (creating the child with one visit and the rollout result, which is
`createNode` followed by the first backpropagation step) or, at a childless
node with no moves, roll out in place. On the way back up every ancestor
gains one visit and the result flipped once per level. Returns the updated
node, the result credited at this node, and the number of `expand` calls
performed (0 or 1). -/
def descend {P M : Type} (g : GameRules P M) (o : SearchOracle P M) :
    MCTSNode P M → MCTSNode P M × ℚ × Nat
  | .mk mv visits wins untried pos children =>
    match untried, children with
    | [], c0 :: cs =>
      let i : Fin (c0 :: cs).length :=
        ⟨o.selectIdx (c0 :: cs) % (c0 :: cs).length, Nat.mod_lt _ (Nat.succ_pos _)⟩
      let rec_result := descend g o ((c0 :: cs).get i)
      let r := rec_result.2.1
      (.mk mv (visits + 1) (wins + (1 - r)) [] pos ((c0 :: cs).set i rec_result.1),
        1 - r, rec_result.2.2)
    | u0 :: us, cs =>
      let j : Fin (u0 :: us).length :=
        ⟨o.expandIdx (u0 :: us).length % (u0 :: us).length, Nat.mod_lt _ (Nat.succ_pos _)⟩
      let m := (u0 :: us).get j
      let newPos := g.applyMove pos m
      let r := o.simulate newPos
      let child : MCTSNode P M := .mk (some m) 1 r (g.legalMoves newPos) newPos []
      (.mk mv (visits + 1) (wins + (1 - r)) ((u0 :: us).eraseIdx j) pos (cs ++ [child]),
        1 - r, 1)
    | [], [] =>
      let r := o.simulate pos
      (.mk mv (visits + 1) (wins + r) [] pos [], r, 0)
  termination_by n => sizeOf n
  decreasing_by
    have hmem : (c0 :: cs).get
        ⟨o.selectIdx (c0 :: cs) % (c0 :: cs).length, Nat.mod_lt _ (Nat.succ_pos _)⟩
        ∈ (c0 :: cs) := List.get_mem _ _ _
    have := List.sizeOf_lt_of_mem hmem
    simp only [MCTSNode.mk.sizeOf_spec]
    omega

/-- The simulation loop `for (let i = 0; i < numSimulations; i++)`
(mcts.ts lines 322-340), accumulating the expansion count. -/
def mctsLoop {P M : Type} (g : GameRules P M) (o : SearchOracle P M) :
    Nat → MCTSNode P M × Nat → MCTSNode P M × Nat
  | 0, acc => acc
  | n + 1, acc =>
    let step := descend g o acc.1
    mctsLoop g o n (step.1, acc.2 + step.2.2)

/-- The final score of a root child (mcts.ts lines 346-353):
`child.visits`, plus `qValueBias(child.move) * numSimulations * 0.1` when a
bias function was supplied and the move is non-null. -/
def mctsScore {P M : Type} (qBias : Option (M → ℚ)) (numSims : Nat)
    (c : MCTSNode P M) : ℚ :=
  (c.visits : ℚ) +
    match qBias, c.move with
    | some f, some m => f m * numSims * (1/10)
    | _, _ => 0

/-- Best-move selection over the root children (mcts.ts lines 343-359):
`bestScore` starts at `-Infinity` and `bestChild` at `children[0]`, so the
loop is a fold from the first child with a strict comparison. On an empty
children list the source would fault reading `children[0]`; that case is
unreachable under at least one simulation and is mapped to `none`. -/
def bestChildMove {P M : Type} (qBias : Option (M → ℚ)) (numSims : Nat) :
    List (MCTSNode P M) → Option M
  | [] => none
  | c0 :: rest =>
    (rest.foldl
      (fun best c =>
        if mctsScore qBias numSims best < mctsScore qBias numSims c then c else best)
      c0).move

/-- The outcome of one `mcts` call, instrumented with whether a tree was
built (`createNode` reached for the root) and how many `expand` calls ran. -/
structure MCTSResult (M : Type) where
  move : Option M
  treeBuilt : Bool
  expansions : Nat
deriving DecidableEq

/-- `mcts(fen, numSimulations, qValueBias)` (mcts.ts lines 308-365): return
`null` on zero legal moves; return the single legal move immediately —
before any node is created — when exactly one exists; otherwise build the
tree, run the simulations and pick the best root child. -/
def mcts {P M : Type} (g : GameRules P M) (o : SearchOracle P M) (pos : P)
    (numSims : Nat) (qBias : Option (M → ℚ)) : MCTSResult M :=
  match g.legalMoves pos with
  | [] => ⟨none, false, 0⟩
  | [m] => ⟨some m, false, 0⟩
  | _ :: _ :: _ =>
    let root := createNode g pos none
    let final := mctsLoop g o numSims (root, 0)
    ⟨bestChildMove qBias numSims final.1.children, true, final.2⟩

/-! ## Theorems -/

/-- The learning walk exactly as the specification words it: walk the Game
Trace backward; for each recorded `(key, move, immediateReward)` compute
`newValue = oldValue + 0.1 * (cumulativeReward - oldValue)`, write it to the
store, then update `cumulativeReward = immediateReward + 0.9 *
cumulativeReward` for the next (earlier) step. Written from the spec text,
to be compared with the source embedding `learnQTable`. Entries later in
the trace are processed first. -/
def specLearnWalk : List HistEntry → QTable → ℚ → QTable × ℚ
  | [], store, cum => (store, cum)
  | e :: rest, store, cum =>
    let later := specLearnWalk rest store cum
    let oldValue := getQValue later.1 e.positionHash e.move
    let newValue := oldValue + (1/10) * (later.2 - oldValue)
    (setQValue later.1 e.positionHash e.move newValue,
      e.reward + (9/10) * later.2)

/-- The terminal-reward seed as the specification words it:
win `1.0`, loss `-1.0`, draw `0.1`. -/
def specSeed : GameResult → ℚ
  | .win => 1
  | .loss => -1
  | .draw => 1/10

theorem foldl_learnStep_reverse (l : List HistEntry) (t : QTable) (c : ℚ) :
    l.reverse.foldl learnStep (t, c) = specLearnWalk l t c := by
  induction l with
  | nil => rfl
  | cons e rest ih =>
    simp only [List.reverse_cons, List.foldl_append, List.foldl_cons, List.foldl_nil, ih]
    simp [specLearnWalk, learnStep, LEARNING_RATE, DISCOUNT_FACTOR]

/-- C1: for every game outcome and every recorded Game Trace, the learning
step of `learn` walks the trace backward and performs, per recorded
`(key, move, immediateReward)` triple, exactly the Value Store write
`newValue = oldValue + 0.1 * (cumulativeReward - oldValue)` followed by the
update `cumulativeReward = immediateReward + 0.9 * cumulativeReward`, with
the cumulative reward seeded by the terminal constant of the outcome
(win 1.0, loss -1.0, draw 0.1). -/
theorem learn_is_backward_walk (result : GameResult) (s : NNState) :
    (NeuralNetwork.learn result s).qTable
      = (specLearnWalk s.gameHistory s.qTable (specSeed result)).1 := by
  have hseed : finalReward result = specSeed result := by
    cases result <;> rfl
  simp only [NeuralNetwork.learn, learnQTable, hseed, foldl_learnStep_reverse]

/-- C5: `learn()` clears the Game Trace, so a second consecutive `learn()`
call runs on the empty trace and leaves every entry of the Value Store
unchanged. -/
theorem learn_clears_trace_second_learn_noop
    (s : NNState) (r1 r2 : GameResult) :
    (NeuralNetwork.learn r1 s).gameHistory = []
    ∧ (NeuralNetwork.learn r2 (NeuralNetwork.learn r1 s)).qTable
        = (NeuralNetwork.learn r1 s).qTable := by
  constructor
  · rfl
  · simp [NeuralNetwork.learn, learnQTable]

/-- C9: `importState(exportState())` exactly restores `gamesPlayed`, `wins`,
`losses`, `draws`, the three streak fields, and every Value Store entry;
the rating comes back as its integer floor, and the exploration rate is not
taken from the snapshot but recomputed as
`max(0.05, 0.3 * 0.995 ^ gamesPlayed)`. -/
theorem importState_exportState_roundtrip (s : NNState) :
    (NeuralNetwork.importState (NeuralNetwork.exportState s) s).gamesPlayed
        = s.gamesPlayed
    ∧ (NeuralNetwork.importState (NeuralNetwork.exportState s) s).wins = s.wins
    ∧ (NeuralNetwork.importState (NeuralNetwork.exportState s) s).losses = s.losses
    ∧ (NeuralNetwork.importState (NeuralNetwork.exportState s) s).draws = s.draws
    ∧ (NeuralNetwork.importState (NeuralNetwork.exportState s) s).currentStreak
        = s.currentStreak
    ∧ (NeuralNetwork.importState (NeuralNetwork.exportState s) s).bestWinStreak
        = s.bestWinStreak
    ∧ (NeuralNetwork.importState (NeuralNetwork.exportState s) s).bestLossStreak
        = s.bestLossStreak
    ∧ (NeuralNetwork.importState (NeuralNetwork.exportState s) s).qTable = s.qTable
    ∧ (NeuralNetwork.importState (NeuralNetwork.exportState s) s).elo = (⌊s.elo⌋ : ℚ)
    ∧ (NeuralNetwork.importState (NeuralNetwork.exportState s) s).explorationRate
        = max (1/20) ((3/10) * (199/200) ^ s.gamesPlayed) := by
  simp [NeuralNetwork.importState, NeuralNetwork.exportState,
    MIN_EXPLORATION, INITIAL_EXPLORATION, EXPLORATION_DECAY]

theorem quickTrainLoop_eq_iterate {σ : Type} (playGame : σ → σ) :
    ∀ (n : Nat) (st : σ), quickTrainLoop playGame n st = playGame^[n] st := by
  intro n
  induction n with
  | zero => intro st; rfl
  | succ k ih =>
    intro st
    rw [quickTrainLoop, ih, Function.iterate_succ_apply]

/-- C10: the number of games `quickTrain` actually plays for a `quick_train`
command is clamped: exactly `min(max(1, n), 50)` games for a positive
payload `n`, and 5 games when the payload is missing or zero; a request for
more than 50 games is capped at 50. -/
theorem quickTrain_clamped {σ : Type} (playGame : σ → σ) (st : σ) (n : Nat) :
    (1 ≤ n →
      quickTrain playGame (quickTrainGames (some n)) st
        = (playGame^[min (max 1 n) 50] st, min (max 1 n) 50))
    ∧ quickTrain playGame (quickTrainGames none) st = (playGame^[5] st, 5)
    ∧ quickTrain playGame (quickTrainGames (some 0)) st = (playGame^[5] st, 5)
    ∧ (50 ≤ n → quickTrainGames (some n) = 50) := by
  refine ⟨?_, ?_, ?_, ?_⟩
  · intro hn
    match n, hn with
    | k + 1, _ =>
      simp [quickTrain, quickTrainGames, quickTrainLoop_eq_iterate]
  · simp [quickTrain, quickTrainGames, quickTrainLoop_eq_iterate]
  · simp [quickTrain, quickTrainGames, quickTrainLoop_eq_iterate]
  · intro hn
    match n, hn with
    | k + 1, hn =>
      simp only [quickTrainGames]
      omega

/-- Witness for C10 at the concrete over-limit request `quickTrain(60)` on
the successor function: exactly 50 games are played. -/
theorem quickTrain_clamped_witness :
    quickTrain Nat.succ (quickTrainGames (some 60)) 0
      = (Nat.succ^[min (max 1 60) 50] 0, min (max 1 60) 50) :=
  (quickTrain_clamped Nat.succ 0 60).1 (by decide)

/-! ### C3: the canonical position key -/

/-- A position with a live en-passant target, as the rules oracle reports it
(a black pawn on d4 can capture the pawn that just moved e2-e4). -/
def fenWithEp : Fen :=
  { placement := "rnbqkbnr/ppp1pppp/8/8/3pP3/8/PPPP1PPP/RNBQKBNR"
    sideToMove := "b"
    castling := "KQkq"
    enPassant := "e3"
    halfmove := 0
    fullmove := 3 }

/-- The same piece placement, side to move and castling rights, loaded
without the en-passant target. -/
def fenWithoutEp : Fen :=
  { fenWithEp with enPassant := "-" }

/-- C3 as stated is false: these two game states agree on piece placement,
side to move and castling rights, yet their canonical keys differ, because
the key also carries the fourth FEN field (the en-passant target). -/
theorem positionKey_reads_enPassant :
    fenWithEp.placement = fenWithoutEp.placement
    ∧ fenWithEp.sideToMove = fenWithoutEp.sideToMove
    ∧ fenWithEp.castling = fenWithoutEp.castling
    ∧ hashPosition fenWithEp ≠ hashPosition fenWithoutEp := by
  refine ⟨rfl, rfl, rfl, ?_⟩
  decide

/-- C3 amended: the canonical key is the first four FEN fields — piece
placement, side to move, castling rights, and the en-passant target — with
the move/ply counters excluded, so any two states identical in these four
fields map to the same key; in particular two states differing only in the
ply/move counters produce the same key. -/
theorem positionKey_ignores_counters (f1 f2 : Fen)
    (hp : f1.placement = f2.placement)
    (hs : f1.sideToMove = f2.sideToMove)
    (hc : f1.castling = f2.castling)
    (he : f1.enPassant = f2.enPassant) :
    hashPosition f1 = hashPosition f2 := by
  simp [hashPosition, hp, hs, hc, he]

/-- Witness for the amended C3 at two concrete states differing only in the
halfmove clock and fullmove number. -/
theorem positionKey_ignores_counters_witness :
    hashPosition fenWithEp = hashPosition { fenWithEp with halfmove := 7, fullmove := 19 } :=
  positionKey_ignores_counters _ _ rfl rfl rfl rfl

/-! ### C4: `stop()` -/

/-- A concrete orchestrator state in which the white agent has an in-progress
Game Trace of one recorded step. -/
def gmWithTrace : GMState Unit :=
  { chess := { position := (), history := ["e4"] }
    whiteAI :=
      { elo := 800, gamesPlayed := 0, wins := 0, losses := 0, draws := 0
        explorationRate := 3/10, currentStreak := 0, bestWinStreak := 0
        bestLossStreak := 0, qTable := []
        gameHistory := [{ positionHash := "h", move := "e4", reward := 0 }] }
    blackAI :=
      { elo := 800, gamesPlayed := 0, wins := 0, losses := 0, draws := 0
        explorationRate := 3/10, currentStreak := 0, bestWinStreak := 0
        bestLossStreak := 0, qTable := [], gameHistory := [] }
    isRunning := true
    timerPending := true
    moveTimesMs := [12]
    blunderDetector := { evalHistory := [0], moveHistory := [], lastMoveNumber := 1 }
    lastMoveEval := none }

/-- C4 as stated is false: `stop()` does not clear the in-progress Game
Trace — the agents are not touched at all, and the white trace recorded
before the stop is still there afterwards. -/
theorem stop_does_not_clear_trace :
    (GameManager.stop () gmWithTrace).whiteAI.gameHistory
        = [{ positionHash := "h", move := "e4", reward := 0 }]
    ∧ (GameManager.stop () gmWithTrace).whiteAI.gameHistory ≠ [] := by
  exact ⟨rfl, by decide⟩

/-- C4 amended: from every orchestrator state, `stop()` cancels any pending
scheduled move cycle, resets the board to the initial position, and clears
the per-game move-quality tracking and move-time records; it leaves both
agents entirely untouched — their Value Stores, but also their in-progress
Game Traces, which it does not clear. A subsequent `start()` begins from
the initial position with zero moves played, agents still untouched. -/
theorem stop_resets_board_keeps_agents {P : Type} (initial : P) (s : GMState P) :
    (GameManager.stop initial s).isRunning = false
    ∧ (GameManager.stop initial s).timerPending = false
    ∧ (GameManager.stop initial s).chess.position = initial
    ∧ (GameManager.stop initial s).chess.history = []
    ∧ (GameManager.stop initial s).moveTimesMs = []
    ∧ (GameManager.stop initial s).blunderDetector
        = { evalHistory := [], moveHistory := [], lastMoveNumber := 0 }
    ∧ (GameManager.stop initial s).lastMoveEval = none
    ∧ (GameManager.stop initial s).whiteAI = s.whiteAI
    ∧ (GameManager.stop initial s).blackAI = s.blackAI
    ∧ (GameManager.start (GameManager.stop initial s)).chess.position = initial
    ∧ (GameManager.start (GameManager.stop initial s)).chess.history = []
    ∧ (GameManager.start (GameManager.stop initial s)).whiteAI = s.whiteAI
    ∧ (GameManager.start (GameManager.stop initial s)).blackAI = s.blackAI := by
  simp [GameManager.stop, GameManager.pause, GameManager.start,
    ChessGame.reset, BlunderState.reset]

/-! ### C7: the opening-book probability gate -/

/-- The agent state used to exhibit the gate direction, at exploration rate
0.3. -/
def agentLowRate : NNState :=
  { elo := 800, gamesPlayed := 0, wins := 0, losses := 0, draws := 0
    explorationRate := 3/10, currentStreak := 0, bestWinStreak := 0
    bestLossStreak := 0, qTable := [], gameHistory := [] }

/-- The same agent at the larger exploration rate 0.5. -/
def agentHighRate : NNState :=
  { agentLowRate with explorationRate := 1/2 }

/-- The candidate moves of the C7 counterexample position. -/
def movesC7 : List MoveV :=
  [{ san := "e4", captured := none, promotion := false },
   { san := "Nf3", captured := none, promotion := false }]

/-- C7 as stated is false: with the identical random draws, the book gate
passes at exploration rate 0.3 but fails at the larger rate 0.5 — the gate
condition is `draw > explorationRate * 0.5`, so a larger exploration rate
shrinks, not grows, the pass region. At rate 0.3 `decideMove` plays the
book move; at rate 0.5, with the same draws, it does not. -/
theorem bookGate_fails_at_larger_rate :
    (3/10 : ℚ) < 1/2
    ∧ bookGate (3/10) (2/10) = true
    ∧ bookGate (1/2) (2/10) = false
    ∧ decideMove agentLowRate fenWithEp movesC7 true (some "Nf3") (2/10) (6/10) (5/10)
        = (some "Nf3", [])
    ∧ (decideMove agentHighRate fenWithEp movesC7 true (some "Nf3") (2/10) (6/10) (5/10)).1
        = some "e4" := by
  have hgLo : bookGate (3/10) (2/10) = true := by
    simp only [bookGate, decide_eq_true_eq]
    norm_num
  have hgHi : bookGate (1/2) (2/10) = false := by
    simp only [bookGate, decide_eq_false_iff_not, not_lt]
    norm_num
  refine ⟨by norm_num, hgLo, hgHi, ?_, ?_⟩
  · simp [decideMove, movesC7, agentLowRate, hgLo]
  · simp only [decideMove, movesC7, agentHighRate, agentLowRate]
    norm_num [bookGate, getQValue, JsMap.get, evaluateMove]
    have c1 : ¬('+' = 'e' ∨ '+' = '4') := by decide
    have c2 : ¬('#' = 'e' ∨ '#' = '4') := by decide
    have c3 : ¬('+' = 'N' ∨ '+' = 'f' ∨ '+' = '3') := by decide
    have c4 : ¬('#' = 'N' ∨ '#' = 'f' ∨ '#' = '3') := by decide
    norm_num [c1, c2, c3, c4]

/-- C7 amended: the gate passes exactly when the draw exceeds half the
exploration rate, so a smaller exploration rate gives a larger pass region:
for a fixed random draw, whenever the book gate passes at some exploration
rate it also passes at every smaller exploration rate (the chance of
playing a book move never shrinks as the exploration rate decays), and a
passing gate returns the valid book move without touching the Game Trace. -/
theorem bookGate_monotone_down (s s2 : NNState) (fen : Fen) (m0 : MoveV)
    (moves : List MoveV) (bm : String) (r0 r1 r2 : ℚ)
    (hrate : s2.explorationRate ≤ s.explorationRate)
    (hgate : bookGate s.explorationRate r0 = true)
    (hbm : (m0 :: moves).any (fun m => m.san = bm) = true) :
    bookGate s2.explorationRate r0 = true
    ∧ decideMove s fen (m0 :: moves) true (some bm) r0 r1 r2
        = (some bm, s.gameHistory)
    ∧ decideMove s2 fen (m0 :: moves) true (some bm) r0 r1 r2
        = (some bm, s2.gameHistory) := by
  have hgate2 : bookGate s2.explorationRate r0 = true := by
    simp only [bookGate, decide_eq_true_eq] at hgate ⊢
    calc s2.explorationRate * (1/2) ≤ s.explorationRate * (1/2) := by
          apply mul_le_mul_of_nonneg_right hrate
          norm_num
      _ < r0 := hgate
  refine ⟨hgate2, ?_, ?_⟩ <;>
    simp [decideMove, hgate, hgate2, hbm]

/-- Witness for the amended C7: the gate passing at rate 0.3 also passes at
the smaller rate 0.05, and both agents play the book move untraced. -/
theorem bookGate_monotone_down_witness :
    bookGate ({ agentLowRate with explorationRate := 1/20 } : NNState).explorationRate (2/10)
        = true
    ∧ decideMove agentLowRate fenWithEp
        ({ san := "e4", captured := none, promotion := false } ::
          [{ san := "Nf3", captured := none, promotion := false }]) true (some "Nf3")
        (2/10) (6/10) (5/10)
        = (some "Nf3", agentLowRate.gameHistory)
    ∧ decideMove { agentLowRate with explorationRate := 1/20 } fenWithEp
        ({ san := "e4", captured := none, promotion := false } ::
          [{ san := "Nf3", captured := none, promotion := false }]) true (some "Nf3")
        (2/10) (6/10) (5/10)
        = (some "Nf3", ({ agentLowRate with explorationRate := 1/20 } : NNState).gameHistory) :=
  bookGate_monotone_down agentLowRate { agentLowRate with explorationRate := 1/20 }
    fenWithEp { san := "e4", captured := none, promotion := false }
    [{ san := "Nf3", captured := none, promotion := false }] "Nf3" (2/10) (6/10) (5/10)
    (by simp only [agentLowRate]; norm_num)
    (by simp only [agentLowRate, bookGate, decide_eq_true_eq]; norm_num)
    (by decide)

/-! ### C8: benchmark versus quick training -/

/-- C8 as stated is false: a `run_benchmark` command arriving while a
quick-training run is in flight is not rejected — no busy signal is emitted
— and the resulting reachable state has a benchmark and a quick-training
run active simultaneously. -/
theorem benchmark_accepted_during_quickTrain :
    (orchRun orchInit [OrchEvent.qtArrive]).quickTrainActive = true
    ∧ (orchStep (orchRun orchInit [OrchEvent.qtArrive]) OrchEvent.benchArrive).2 = false
    ∧ (orchRun orchInit [OrchEvent.qtArrive, OrchEvent.benchArrive]).isBenchmarking = true
    ∧ (orchRun orchInit [OrchEvent.qtArrive, OrchEvent.benchArrive]).quickTrainActive
        = true := by
  decide

/-- C8 amended: only concurrent benchmarks are excluded — a `runBenchmark`
command is rejected with a busy signal exactly when another benchmark is in
progress, and the rejection leaves the state unchanged; quick training sets
no flag that the benchmark handler checks, so it does not block a
benchmark. -/
theorem benchmark_busy_iff_benchmarking (s : OrchFlags) :
    ((orchStep s OrchEvent.benchArrive).2 = s.isBenchmarking)
    ∧ (s.isBenchmarking = true → orchStep s OrchEvent.benchArrive = (s, true))
    ∧ (s.isBenchmarking = false →
        orchStep s OrchEvent.benchArrive = ({ s with isBenchmarking := true }, false))
    ∧ (orchStep s OrchEvent.qtArrive).1.isBenchmarking = s.isBenchmarking := by
  obtain ⟨b, q⟩ := s
  cases b <;> simp [orchStep]

/-- Witness for the amended C8: with a benchmark already running, a second
`run_benchmark` is rejected with the busy signal and changes nothing. -/
theorem benchmark_busy_iff_benchmarking_witness :
    orchStep { isBenchmarking := true, quickTrainActive := false } OrchEvent.benchArrive
      = ({ isBenchmarking := true, quickTrainActive := false }, true) :=
  (benchmark_busy_iff_benchmarking
    { isBenchmarking := true, quickTrainActive := false }).2.1 rfl

/-! ### C2: Value Store capacity and eviction order -/

theorem JsMap.hasKey_iff {β : Type} (m : JsMap β) (k : String) :
    m.hasKey k = true ↔ ∃ x ∈ m, x.1 = k := by
  simp [JsMap.hasKey, List.find?_isSome]

theorem JsMap.length_set_le {β : Type} (m : JsMap β) (k : String) (v : β) :
    (m.set k v).length ≤ m.length + 1 := by
  unfold JsMap.set
  split
  · simp
  · simp

theorem JsMap.length_set_of_hasKey {β : Type} (m : JsMap β) (k : String) (v : β)
    (h : m.hasKey k = true) :
    (m.set k v).length = m.length := by
  unfold JsMap.set
  simp [h]

theorem JsMap.length_set_of_not_hasKey {β : Type} (m : JsMap β) (k : String) (v : β)
    (h : m.hasKey k = false) :
    (m.set k v).length = m.length + 1 := by
  unfold JsMap.set
  simp [h]

theorem JsMap.hasKey_set_self {β : Type} (m : JsMap β) (k : String) (v : β) :
    (m.set k v).hasKey k = true := by
  unfold JsMap.set
  split
  case isTrue h =>
    rw [JsMap.hasKey_iff] at h ⊢
    obtain ⟨x, hx, hk⟩ := h
    exact ⟨(k, v), List.mem_map.mpr ⟨x, hx, by simp [hk]⟩, rfl⟩
  case isFalse h =>
    rw [JsMap.hasKey_iff]
    exact ⟨(k, v), by simp, rfl⟩

theorem hasKey_of_hasKey_filter {β : Type} (m : JsMap β) (q : String × β → Bool)
    (k : String) (h : JsMap.hasKey (m.filter q) k = true) : m.hasKey k = true := by
  rw [JsMap.hasKey_iff] at h ⊢
  obtain ⟨x, hx, hk⟩ := h
  exact ⟨x, (List.mem_filter.mp hx).1, hk⟩

/-- When the table is at least at capacity, pruning strictly shrinks it:
the sorted aggregate list is nonempty, its head is among the removed 20%,
and the corresponding entry of the table gets filtered out. -/
theorem pruneQTable_length_lt (t : QTable) (h : MAX_POSITIONS ≤ t.length) :
    (pruneQTable t).length < t.length := by
  unfold pruneQTable
  apply List.length_filter_lt_length_iff_exists.mpr
  have hM : MAX_POSITIONS = 10000 := rfl
  rw [hM] at h
  have hn : 1 ≤ (t.map (fun p => (p.1, totalVisits p.2))).length / 5 := by
    simp only [List.length_map]
    omega
  have hlen : (((t.map (fun p => (p.1, totalVisits p.2))).insertionSort
      (fun a b => a.2 ≤ b.2))).length = t.length := by
    rw [(List.perm_insertionSort _ _).length_eq, List.length_map]
  obtain ⟨s0, rest, hsr⟩ :
      ∃ s0 rest, ((t.map (fun p => (p.1, totalVisits p.2))).insertionSort
        (fun a b => a.2 ≤ b.2)) = s0 :: rest := by
    cases hs : ((t.map (fun p => (p.1, totalVisits p.2))).insertionSort
        (fun a b => a.2 ≤ b.2)) with
    | nil => rw [hs] at hlen; simp at hlen; omega
    | cons a l => exact ⟨a, l, rfl⟩
  obtain ⟨j, hj⟩ := Nat.exists_eq_add_of_le hn
  have hs0 : s0 ∈ ((t.map (fun p => (p.1, totalVisits p.2))).insertionSort
      (fun a b => a.2 ≤ b.2)).take ((t.map (fun p => (p.1, totalVisits p.2))).length / 5) := by
    rw [hsr, hj, Nat.add_comm, List.take_succ_cons]
    exact List.mem_cons_self _ _
  have hs0mem : s0 ∈ t.map (fun p => (p.1, totalVisits p.2)) := by
    have := (List.perm_insertionSort
      (fun a b : String × Nat => a.2 ≤ b.2)
      (t.map (fun p => (p.1, totalVisits p.2)))).mem_iff (a := s0)
    rw [← this, hsr]
    simp
  obtain ⟨p, hp, hfp⟩ := List.mem_map.mp hs0mem
  refine ⟨p, hp, ?_⟩
  have hkey : p.1 ∈ (((t.map (fun p => (p.1, totalVisits p.2))).insertionSort
      (fun a b => a.2 ≤ b.2)).take
        ((t.map (fun p => (p.1, totalVisits p.2))).length / 5)).map (fun q => q.1) := by
    apply List.mem_map.mpr
    refine ⟨s0, hs0, ?_⟩
    rw [← hfp]
  simpa using hkey

/-- One `setQValue` keeps the table within capacity. -/
theorem setQValue_length_le (t : QTable) (ph mv : String) (v : ℚ)
    (h : t.length ≤ MAX_POSITIONS) :
    (setQValue t ph mv v).length ≤ MAX_POSITIONS := by
  unfold setQValue
  cases hk : t.hasKey ph with
  | true =>
    simp only [hk, if_true]
    rw [JsMap.length_set_of_hasKey _ _ _ hk]
    exact h
  | false =>
    simp only [hk, Bool.false_eq_true, if_false]
    cases hcap : decide (MAX_POSITIONS ≤ JsMap.size t) with
    | false =>
      simp only [JsMap.size] at hcap
      have hlt : ¬ (MAX_POSITIONS ≤ t.length) := by
        simpa using hcap
      simp only [JsMap.size, hlt, if_false]
      rw [JsMap.length_set_of_hasKey _ _ _ (JsMap.hasKey_set_self t ph [])]
      rw [JsMap.length_set_of_not_hasKey _ _ _ hk]
      omega
    | true =>
      have hge : MAX_POSITIONS ≤ t.length := by
        simp only [JsMap.size] at hcap
        simpa using hcap
      simp only [JsMap.size, hge, if_true]
      rw [JsMap.length_set_of_hasKey _ _ _ (JsMap.hasKey_set_self (pruneQTable t) ph [])]
      have hpk : (pruneQTable t).hasKey ph = false := by
        cases hpk : (pruneQTable t).hasKey ph with
        | false => rfl
        | true =>
          have := hasKey_of_hasKey_filter _ _ _ (by rw [← hpk]; rfl)
          rw [hk] at this
          exact absurd this (by simp)
      rw [JsMap.length_set_of_not_hasKey _ _ _ hpk]
      have := pruneQTable_length_lt t hge
      omega

/-- C2: after any sequence of Value Store updates starting from the empty
table, the table never holds more than `MAX_POSITIONS = 10000` distinct
position keys; and eviction always removes lowest-aggregate-visit entries
first — every entry `pruneQTable` drops has an aggregate visit count no
larger than that of every entry it keeps. -/
theorem valueStore_bounded_and_eviction_ordered :
    (∀ ops : List (String × String × ℚ),
      (ops.foldl (fun t o => setQValue t o.1 o.2.1 o.2.2) ([] : QTable)).length
        ≤ MAX_POSITIONS)
    ∧ (∀ t : QTable, (t.map (fun p => p.1)).Nodup →
        ∀ p ∈ t, ∀ q ∈ t, p ∉ pruneQTable t → q ∈ pruneQTable t →
          totalVisits p.2 ≤ totalVisits q.2) := by
  constructor
  · have haux : ∀ (ops : List (String × String × ℚ)) (t : QTable),
        t.length ≤ MAX_POSITIONS →
        (ops.foldl (fun t o => setQValue t o.1 o.2.1 o.2.2) t).length
          ≤ MAX_POSITIONS := by
      intro ops
      induction ops with
      | nil => intro t h; exact h
      | cons o rest ih =>
        intro t h
        exact ih _ (setQValue_length_le t o.1 o.2.1 o.2.2 h)
    intro ops
    exact haux ops [] (by simp [MAX_POSITIONS])
  · intro t hnodup p hp q hq hpdrop hqkeep
    unfold pruneQTable at hpdrop hqkeep
    have hpkeys : p.1 ∈ (((t.map (fun r => (r.1, totalVisits r.2))).insertionSort
        (fun a b => a.2 ≤ b.2)).take
          ((t.map (fun r => (r.1, totalVisits r.2))).length / 5)).map (fun x => x.1) := by
      by_contra hcon
      refine hpdrop (List.mem_filter.mpr ⟨hp, ?_⟩)
      simpa using hcon
    have hqkeys : q.1 ∉ (((t.map (fun r => (r.1, totalVisits r.2))).insertionSort
        (fun a b => a.2 ≤ b.2)).take
          ((t.map (fun r => (r.1, totalVisits r.2))).length / 5)).map (fun x => x.1) := by
      have hk := (List.mem_filter.mp hqkeep).2
      simpa using hk
    obtain ⟨x, hxtake, hxkey⟩ := List.mem_map.mp hpkeys
    have hsorted : List.Sorted (fun a b : String × Nat => a.2 ≤ b.2)
        ((t.map (fun r => (r.1, totalVisits r.2))).insertionSort (fun a b => a.2 ≤ b.2)) := by
      haveI : IsTotal (String × Nat) (fun a b : String × Nat => a.2 ≤ b.2) :=
        ⟨fun a b => Nat.le_total a.2 b.2⟩
      haveI : IsTrans (String × Nat) (fun a b : String × Nat => a.2 ≤ b.2) :=
        ⟨fun _ _ _ hab hbc => Nat.le_trans hab hbc⟩
      exact List.sorted_insertionSort _ _
    have hq_in_sorted : (q.1, totalVisits q.2)
        ∈ (t.map (fun r => (r.1, totalVisits r.2))).insertionSort (fun a b => a.2 ≤ b.2) := by
      rw [List.mem_insertionSort]
      exact List.mem_map_of_mem _ hq
    have hq_not_take : (q.1, totalVisits q.2)
        ∉ ((t.map (fun r => (r.1, totalVisits r.2))).insertionSort
            (fun a b => a.2 ≤ b.2)).take
          ((t.map (fun r => (r.1, totalVisits r.2))).length / 5) := by
      intro hmem
      exact hqkeys (List.mem_map.mpr ⟨(q.1, totalVisits q.2), hmem, rfl⟩)
    have hq_in_drop : (q.1, totalVisits q.2)
        ∈ ((t.map (fun r => (r.1, totalVisits r.2))).insertionSort
            (fun a b => a.2 ≤ b.2)).drop
          ((t.map (fun r => (r.1, totalVisits r.2))).length / 5) := by
      have hsplit := List.take_append_drop
        ((t.map (fun r => (r.1, totalVisits r.2))).length / 5)
        ((t.map (fun r => (r.1, totalVisits r.2))).insertionSort (fun a b => a.2 ≤ b.2))
      have h2 := hq_in_sorted
      rw [← hsplit] at h2
      rcases List.mem_append.mp h2 with h | h
      · exact absurd h hq_not_take
      · exact h
    have hle : x.2 ≤ totalVisits q.2 := by
      have hsp : List.Pairwise (fun a b : String × Nat => a.2 ≤ b.2)
          ((((t.map (fun r => (r.1, totalVisits r.2))).insertionSort
              (fun a b => a.2 ≤ b.2)).take
            ((t.map (fun r => (r.1, totalVisits r.2))).length / 5))
          ++ (((t.map (fun r => (r.1, totalVisits r.2))).insertionSort
              (fun a b => a.2 ≤ b.2)).drop
            ((t.map (fun r => (r.1, totalVisits r.2))).length / 5))) := by
        rw [List.take_append_drop]
        exact hsorted
      exact (List.pairwise_append.mp hsp).2.2 x hxtake (q.1, totalVisits q.2) hq_in_drop
    have hx_in_entries : x ∈ t.map (fun r => (r.1, totalVisits r.2)) := by
      have hx2 := List.mem_of_mem_take hxtake
      rw [List.mem_insertionSort] at hx2
      exact hx2
    obtain ⟨px, hpx, hfpx⟩ := List.mem_map.mp hx_in_entries
    have hpx_eq : px = p := by
      apply List.inj_on_of_nodup_map hnodup hpx hp
      have hx1 : px.1 = x.1 := by rw [← hfpx]
      rw [hx1, hxkey]
    have hxval : x.2 = totalVisits p.2 := by
      rw [← hfpx, hpx_eq]
    rw [← hxval]
    exact hle

/-- A concrete five-key table: aggregates a:5, b:1, c:4, d:3, e:2, so the
20% eviction removes exactly the key `b`. -/
def tableFive : QTable :=
  [("a", [("m", ⟨1, 5⟩)]), ("b", [("m", ⟨1, 1⟩)]), ("c", [("m", ⟨1, 4⟩)]),
   ("d", [("m", ⟨1, 3⟩)]), ("e", [("m", ⟨1, 2⟩)])]

/-- Witness for C2 at `tableFive`: the evicted entry `b` (1 visit) has no
more aggregate visits than the surviving entry `a` (5 visits). -/
theorem valueStore_eviction_witness :
    totalVisits ([("m", (⟨1, 1⟩ : QTableEntry))] : JsMap QTableEntry)
      ≤ totalVisits ([("m", (⟨1, 5⟩ : QTableEntry))] : JsMap QTableEntry) :=
  valueStore_bounded_and_eviction_ordered.2 tableFive (by decide)
    ("b", [("m", ⟨1, 1⟩)]) (by decide)
    ("a", [("m", ⟨1, 5⟩)]) (by decide)
    (by decide) (by decide)

/-! ### C6: Tree Search Engine guard clauses -/

theorem descend_move {P M : Type} (g : GameRules P M) (o : SearchOracle P M)
    (n : MCTSNode P M) : (descend g o n).1.move = n.move := by
  match n with
  | .mk mv visits wins untried pos children =>
    match untried, children with
    | [], [] => simp [descend, MCTSNode.move]
    | [], c0 :: cs => simp [descend, MCTSNode.move]
    | u0 :: us, cs => simp [descend, MCTSNode.move]

theorem descend_children_length {P M : Type} (g : GameRules P M)
    (o : SearchOracle P M) (n : MCTSNode P M) :
    n.children.length ≤ (descend g o n).1.children.length := by
  match n with
  | .mk mv visits wins untried pos children =>
    match untried, children with
    | [], [] => simp [descend, MCTSNode.children]
    | [], c0 :: cs => simp [descend, MCTSNode.children]
    | u0 :: us, cs => simp [descend, MCTSNode.children]

theorem descend_children_isSome {P M : Type} (g : GameRules P M)
    (o : SearchOracle P M) (n : MCTSNode P M)
    (h : ∀ c ∈ n.children, c.move.isSome) :
    ∀ c ∈ (descend g o n).1.children, c.move.isSome := by
  match n with
  | .mk mv visits wins untried pos children =>
    match untried, children with
    | [], [] =>
      simp [descend, MCTSNode.children]
    | [], c0 :: cs =>
      simp only [descend, MCTSNode.children]
      intro c hc
      rcases List.mem_or_eq_of_mem_set hc with hmem | heq
      · exact h c (by simpa [MCTSNode.children] using hmem)
      · subst heq
        rw [descend_move]
        apply h
        simp only [MCTSNode.children]
        exact List.get_mem _ _ _
    | u0 :: us, cs =>
      simp only [descend, MCTSNode.children]
      intro c hc
      rcases List.mem_append.mp hc with hmem | hone
      · exact h c (by simpa [MCTSNode.children] using hmem)
      · simp only [List.mem_singleton] at hone
        subst hone
        simp [MCTSNode.move]

theorem mctsLoop_children {P M : Type} (g : GameRules P M) (o : SearchOracle P M) :
    ∀ (k : Nat) (acc : MCTSNode P M × Nat),
      acc.1.children ≠ [] → (∀ c ∈ acc.1.children, c.move.isSome) →
      (mctsLoop g o k acc).1.children ≠ []
        ∧ ∀ c ∈ (mctsLoop g o k acc).1.children, c.move.isSome := by
  intro k
  induction k with
  | zero => intro acc h1 h2; exact ⟨h1, h2⟩
  | succ j ih =>
    intro acc h1 h2
    rw [mctsLoop]
    apply ih
    · have hlen := descend_children_length g o acc.1
      have hpos : 0 < acc.1.children.length := List.length_pos.mpr h1
      intro hemp
      rw [hemp] at hlen
      simp only [List.length_nil, Nat.le_zero] at hlen
      omega
    · exact descend_children_isSome g o acc.1 h2

theorem descend_fresh_root {P M : Type} (g : GameRules P M) (o : SearchOracle P M)
    (mv : Option M) (pos : P) (m0 : M) (ms : List M) :
    (descend g o (.mk mv 0 0 (m0 :: ms) pos [])).1.children ≠ []
    ∧ ∀ c ∈ (descend g o (.mk mv 0 0 (m0 :: ms) pos [])).1.children,
        c.move.isSome := by
  constructor
  · simp [descend, MCTSNode.children]
  · intro c hc
    simp only [descend, MCTSNode.children, List.nil_append,
      List.mem_singleton] at hc
    subst hc
    simp [MCTSNode.move]

theorem foldl_pick_mem {α : Type} (score : α → ℚ) :
    ∀ (l : List α) (b : α),
      l.foldl (fun best c => if score best < score c then c else best) b
        ∈ b :: l := by
  intro l
  induction l with
  | nil => intro b; simp
  | cons d ds ih =>
    intro b
    simp only [List.foldl_cons]
    rcases List.mem_cons.mp (ih (if score b < score d then d else b)) with heq | hmem
    · rw [heq]
      by_cases hc : score b < score d
      · simp [hc]
      · simp [hc]
    · simp [hmem]

theorem bestChildMove_isSome {P M : Type} (qBias : Option (M → ℚ)) (numSims : Nat)
    (children : List (MCTSNode P M)) (hne : children ≠ [])
    (hsome : ∀ c ∈ children, c.move.isSome) :
    (bestChildMove qBias numSims children).isSome := by
  match children with
  | c0 :: rest =>
    simp only [bestChildMove]
    apply hsome
    exact foldl_pick_mem (mctsScore qBias numSims) rest c0

/-- C6: for every position and every oracle, with at least one simulation
budgeted, the search returns "no move" exactly when there are zero legal
moves; and for every position with exactly one legal move it returns that
move immediately, without building a tree and without a single `expand`
call. -/
theorem mcts_none_iff_no_moves {P M : Type} (g : GameRules P M)
    (o : SearchOracle P M) (pos : P) (numSims : Nat) (qBias : Option (M → ℚ))
    (hsims : 1 ≤ numSims) :
    ((mcts g o pos numSims qBias).move = none ↔ g.legalMoves pos = [])
    ∧ (∀ m, g.legalMoves pos = [m] →
        mcts g o pos numSims qBias = ⟨some m, false, 0⟩) := by
  constructor
  · cases hlm : g.legalMoves pos with
    | nil => simp [mcts, hlm]
    | cons m1 tail =>
      cases tail with
      | nil => simp [mcts, hlm]
      | cons m2 rest =>
        obtain ⟨k, rfl⟩ : ∃ k, numSims = k + 1 := ⟨numSims - 1, by omega⟩
        simp only [mcts, hlm]
        apply iff_of_false
        · intro hnone
          simp only [mctsLoop, createNode, hlm] at hnone
          have hroot := descend_fresh_root g o (P := P) none pos m1 (m2 :: rest)
          have hloop := mctsLoop_children g o k
            ((descend g o (.mk none 0 0 (m1 :: m2 :: rest) pos [])).1,
              0 + (descend g o (.mk none 0 0 (m1 :: m2 :: rest) pos [])).2.2)
            hroot.1 hroot.2
          have hbest := bestChildMove_isSome qBias (k + 1) _ hloop.1 hloop.2
          exact (Option.ne_none_iff_isSome.mpr hbest) hnone
        · simp
  · intro m hm
    simp [mcts, hm]

/-- A rules oracle with exactly one legal move everywhere. -/
def oneMoveRules : GameRules Unit Nat :=
  { legalMoves := fun _ => [7], applyMove := fun _ _ => () }

/-- A trivial search oracle. -/
def zeroOracle : SearchOracle Unit Nat :=
  { selectIdx := fun _ => 0, expandIdx := fun _ => 0, simulate := fun _ => 0 }

/-- Witness for C6: on the one-move game with one budgeted simulation, the
search returns the single legal move with no tree built and zero
expansions. -/
theorem mcts_none_iff_no_moves_witness :
    mcts oneMoveRules zeroOracle () 1 none = ⟨some 7, false, 0⟩ :=
  (mcts_none_iff_no_moves oneMoveRules zeroOracle () 1 none (by decide)).2 7 rfl

end Chess
